import Mathlib

/-!
Verification development for the consensus core and p2p messenger of the
theta-protocol-ledger repository.

Part 1 embeds the `Messenger` type of the p2p package (`Broadcast`, `Send`,
`AddMessageHandler`) directly from its Go source.

Part 2 models the consensus engine's block validator (`validateBlock`) and
fork choice (`GetTipToVote`, `GetTipToExtend`).  Their Go implementation is
not part of the sources at hand (only `consensus/engine_test.go` is), so the
definitions are modelled from the specification document, with the concrete
input/output pairs of the test file pinning the behavior wherever the
specification text is ambiguous or internally inconsistent.
-/

namespace Theta

/-! ## Part 1: the p2p Messenger (embedded from the Go source) -/

/-- A network message: `{ChannelID, Content}`.  The content bytes are opaque
to the messenger and are modelled by an opaque `Nat` token. -/
structure Message where
  channelID : Nat
  content : Nat
deriving Repr, DecidableEq

/-- A connected peer, as seen by the messenger: its ID and the behavior of
its `Send(channelID, content)` method (abstracted as a function, since the
messenger only forwards to it and reports the boolean result). -/
structure Peer where
  pid : Nat
  send : Nat → Nat → Bool

/-- A message handler, identified by `hid`, declaring the channel IDs it
serves via `GetChannelIDs()`.  Parsing/handling behavior is irrelevant to
the registration logic and is not modelled. -/
structure Handler where
  hid : Nat
  channelIDs : List Nat
deriving Repr, DecidableEq

/-- The `Messenger` struct: the handler registry (`msgHandlerMap`, a Go map
modelled as an association list where the most recent binding wins) and the
peer table. -/
structure Messenger where
  msgHandlerMap : List (Nat × Handler)
  peerTable : List Peer

/-- Lookup in the handler registry: Go's `msgr.msgHandlerMap[channelID]`,
`none` standing for the `nil` map value. -/
def lookupHandler (m : List (Nat × Handler)) (cid : Nat) : Option Handler :=
  match m.find? (fun e => e.fst = cid) with
  | some e => some e.snd
  | none => none

/-- Go source `peerTable.GetPeer(peerID)`: find the peer with the given ID. -/
def getPeer (table : List Peer) (peerID : Nat) : Option Peer :=
  table.find? (fun p => p.pid = peerID)

/-- Send, from the Go source: looks the peer up in the peer table; returns `false`
if the peer is unknown, otherwise the result of `peer.Send(channelID,
content)`. -/
def Messenger.Send (msgr : Messenger) (peerID : Nat) (message : Message) : Bool :=
  match getPeer msgr.peerTable peerID with
  | none => false
  | some peer => peer.send message.channelID message.content

/-- Broadcast, from the Go source: reads the current peer table, allocates a
completion channel of capacity `len(allPeers)`, and spawns one send task per
peer which reports `msgr.Send(peer.ID(), message)` on the channel.  The
result models the returned channel: its capacity and the multiset of
markers delivered on it (one per peer, in peer-table order). -/
def Messenger.Broadcast (msgr : Messenger) (message : Message) : Nat × List Bool :=
  let allPeers := msgr.peerTable
  (allPeers.length, allPeers.map (fun peer => msgr.Send peer.pid message))

/-- The loop body of `Messenger.AddMessageHandler`: for each channel ID in
order, if the registry already has a handler for it, return `false`
immediately (keeping the registrations performed so far); otherwise bind the
channel ID to the new handler and continue. -/
def addHandlerLoop (mp : List (Nat × Handler)) (h : Handler) :
    List Nat → Bool × List (Nat × Handler)
  | [] => (true, mp)
  | cid :: rest =>
    match lookupHandler mp cid with
    | some _ => (false, mp)
    | none => addHandlerLoop ((cid, h) :: mp) h rest

/-- AddMessageHandler, from the Go source: registers the handler for each of its
channel IDs, rejecting (with `false`) on the first channel ID that is
already taken. -/
def Messenger.AddMessageHandler (msgr : Messenger) (h : Handler) : Bool × Messenger :=
  let r := addHandlerLoop msgr.msgHandlerMap h h.channelIDs
  (r.fst, { msgr with msgHandlerMap := r.snd })

/-! ## Part 2: consensus data model

Modelled from the spec: the `Block` / `ExtendedBlock` / `Vote` data model of
§3.  Hashes and addresses are abstract identifiers (`Nat`), with `0` as the
zero hash / zero address.  A block's `hash` is carried as a field (the spec
derives it deterministically from the payload; the model only needs it to be
a stable identifier).  The signature is modelled by the address of the
signing key: verification succeeds exactly when the signer is the stated
proposer. -/

/-- A consensus vote `{ID, BlockHash, Epoch, Signature}`; the signature is
the address of the signing key. -/
structure Vote where
  id : Nat
  block : Nat
  epoch : Nat
  signature : Nat
deriving Repr, DecidableEq

/-- A block, with its derived hash carried as a field and the HCC reference
inlined (`hccHash` = `HCC.BlockHash`, `hccVotes` = `HCC.Votes`). -/
structure Block where
  chainID : Nat
  hash : Nat
  height : Nat
  epoch : Nat
  parent : Nat
  hccHash : Nat
  hccVotes : List Vote
  proposer : Nat
  timestamp : Nat
  signature : Nat
deriving Repr, DecidableEq

/-- The in-store wrapper of a block with its two monotonic flags. -/
structure EBlock where
  blk : Block
  valid : Bool
  hasValidatorUpdate : Bool
deriving Repr, DecidableEq

/-- The chain store's block index: the list of stored extended blocks. -/
def Chain := List EBlock

/-- Lookup `chain.FindBlock(hash)`. -/
def FindBlock (chain : Chain) (h : Nat) : Option EBlock :=
  List.find? (fun e => e.blk.hash = h) chain

/-- Operation `chain.MarkBlockValid(hash)` — sets the `Valid` flag of the stored block
(idempotent). -/
def MarkBlockValid (chain : Chain) (h : Nat) : Chain :=
  List.map (fun e => if e.blk.hash = h then { e with valid := true } else e) chain

/-- Operation `chain.MarkBlockHasValidatorUpdate(hash)` (idempotent). -/
def MarkBlockHasValidatorUpdate (chain : Chain) (h : Nat) : Chain :=
  List.map (fun e => if e.blk.hash = h then { e with hasValidatorUpdate := true } else e)
    chain

/-- The extended block with the `Valid` flag set — the value returned by
`MarkBlockValid`. -/
def setValid (e : EBlock) : EBlock :=
  { e with valid := true }

/-- The validator manager interface consumed by the engine: proposer
selection by `(parentHash, epoch)` and the validator set (list of
`(address, votingPower)`) active at a block hash. -/
structure ValidatorManager where
  getProposer : Nat → Nat → Nat
  getValidatorSet : Nat → List (Nat × Nat)

/-- The hashes of `e` and of all its ancestors reachable in the store, with
fuel bounding the climb (the store is finite and acyclic; `chain.length` is
always enough fuel). -/
def ancestorHashes (chain : Chain) : Nat → EBlock → List Nat
  | 0, e => [e.blk.hash]
  | fuel + 1, e =>
    e.blk.hash ::
      (match FindBlock chain e.blk.parent with
       | some p => ancestorHashes chain fuel p
       | none => [])

/-- Whether `h` is the hash of an ancestor of `e` (inclusive). -/
def isAncestor (chain : Chain) (h : Nat) (e : EBlock) : Bool :=
  h ∈ ancestorHashes chain chain.length e

/-- Total voting power of a validator set. -/
def totalPower (vset : List (Nat × Nat)) : Nat :=
  (vset.map (fun v => v.snd)).sum

/-- Voting power of the validators of `vset` that appear among the voters. -/
def votedPower (vset : List (Nat × Nat)) (votes : List Vote) : Nat :=
  ((vset.filter (fun v => (votes.map (fun w => w.id)).contains v.fst)).map
    (fun v => v.snd)).sum

/-- Quorum: the voters gather strictly more than ⅔ of the voting power of
the validator set. -/
def quorum (vset : List (Nat × Nat)) (votes : List Vote) : Bool :=
  2 * totalPower vset < 3 * votedPower vset votes

/-- Modelled from the spec: rule V6 — when an `HCC.Votes` set is present,
each vote targets `HCC.BlockHash`, each vote's signature verifies against
the voter's key, voters are distinct, and all voters belong to the validator
set active at `HCC.BlockHash`. -/
def votesShapeOk (vm : ValidatorManager) (b : Block) : Bool :=
  b.hccVotes.isEmpty ||
    (b.hccVotes.all (fun v => v.block = b.hccHash) &&
     b.hccVotes.all (fun v => v.signature = v.id) &&
     (b.hccVotes.map (fun v => v.id)).Nodup &&
     b.hccVotes.all
       (fun v => ((vm.getValidatorSet b.hccHash).map (fun w => w.fst)).contains v.id))

/-- Modelled from the spec: rule V1 — chain ID matches, height is the
parent's height plus one, epoch strictly exceeds the parent's, and the
parent link, HCC link, proposer and timestamp are all non-zero. -/
def wellFormed (localChainID : Nat) (b : Block) (parent : EBlock) : Bool :=
  b.chainID = localChainID && b.height = parent.blk.height + 1 &&
    parent.blk.epoch < b.epoch && b.parent ≠ 0 && b.hccHash ≠ 0 &&
    b.proposer ≠ 0 && b.timestamp ≠ 0

/-- Modelled from the spec: rule V2 — the signature verifies against the
proposer's key over the signed payload. -/
def sigOk (b : Block) : Bool :=
  b.signature = b.proposer

/-- Modelled from the spec: rule V3 — the proposer is the one selected by
the validator manager for `(parent.Hash, candidate.Epoch)`. -/
def proposerOk (vm : ValidatorManager) (b : Block) (parent : EBlock) : Bool :=
  b.proposer = vm.getProposer parent.blk.hash b.epoch

/-- Modelled from the spec: rule V5, the HCC legitimacy check under
validator-update constraints.  Let `U` be the closest ancestor of `parent`
(inclusive) with `HasValidatorUpdate`, searched within the three-generation
window `{parent, grandparent, great-grandparent}`:
* `U` undefined: the HCC must reference an ancestor of `parent` (inclusive);
* `U = parent`: the HCC must reference `parent` itself;
* `U = parent`'s parent: the HCC must reference `parent` and carry a
  non-empty vote set reaching a quorum of the validator set active at the
  HCC target (§4.1's literal rule for this case — `U` or an ancestor of `U`
  — contradicts §8 scenario 5 and `TestGrandChildBlockOfValidatorChange`,
  which reject every candidate whose HCC is `U`, an ancestor of `U`, or the
  parent without a sufficient vote set; the model follows §8 and the test);
* `U` two generations above `parent`: the HCC may reference `parent` or
  `U`'s child without votes, and any reference to the generation of `U` or
  earlier must be an ancestor of `parent` carrying a non-empty vote set. -/
def hccOk (chain : Chain) (vm : ValidatorManager) (b : Block) (parent : EBlock) : Bool :=
  if parent.hasValidatorUpdate then
    b.hccHash = parent.blk.hash
  else
    match FindBlock chain parent.blk.parent with
    | none => isAncestor chain b.hccHash parent
    | some gp =>
      if gp.hasValidatorUpdate then
        b.hccHash = parent.blk.hash && !b.hccVotes.isEmpty &&
          quorum (vm.getValidatorSet b.hccHash) b.hccVotes
      else
        match FindBlock chain gp.blk.parent with
        | none => isAncestor chain b.hccHash parent
        | some ggp =>
          if ggp.hasValidatorUpdate then
            match FindBlock chain b.hccHash with
            | none => false
            | some hb =>
              if hb.blk.height ≤ ggp.blk.height then
                !b.hccVotes.isEmpty && isAncestor chain b.hccHash parent
              else
                b.hccHash = parent.blk.hash || b.hccHash = gp.blk.hash
          else isAncestor chain b.hccHash parent

/-- Modelled from the spec: `validateBlock(candidate, parent)` — the pure
admissibility predicate of §4.1, rules V1–V6 conjoined (the engine fails
closed on the first violation; as a pure predicate this is the conjunction).
Rule V4 is `parent.Valid`. -/
def validateBlock (localChainID : Nat) (chain : Chain) (vm : ValidatorManager)
    (b : Block) (parent : EBlock) : Bool :=
  wellFormed localChainID b parent && sigOk b && proposerOk vm b parent &&
    parent.valid && hccOk chain vm b parent && votesShapeOk vm b

/-! ## Part 3: fork choice

Modelled from the spec: `GetTipToVote` / `GetTipToExtend` of §4.2 are
read-only traversals of the chain tree from the root.  The chain tree view
of the store (root block plus the `Children` index) is modelled as a tree. -/

mutual
/-- A node of the chain tree: a stored block and its children subtrees. -/
inductive BlockTree where
  | node : EBlock → BlockForest → BlockTree
/-- A list of children subtrees. -/
inductive BlockForest where
  | nil : BlockForest
  | cons : BlockTree → BlockForest → BlockForest
end

/-- The block at the root of a subtree. -/
def BlockTree.rootBlock : BlockTree → EBlock
  | .node b _ => b

/-- The deterministic choice between two tip candidates: the higher block
wins; equal heights break toward the lexicographically lower hash. -/
def betterTip (a b : EBlock) : EBlock :=
  if a.blk.height < b.blk.height then b
  else if b.blk.height = a.blk.height && b.blk.hash < a.blk.hash then b
  else a

mutual
/-- Modelled from the spec: `GetTipToVote()` — descend from the root along
`Valid` blocks only, returning the highest block so reached (the root when
no valid child path exists). -/
def GetTipToVote : BlockTree → EBlock
  | .node b f => tipsToVote f b
/-- The traversal of the children during `GetTipToVote`: children whose
block is not `Valid` are skipped together with their whole subtree. -/
def tipsToVote : BlockForest → EBlock → EBlock
  | .nil, acc => acc
  | .cons t f, acc =>
    if t.rootBlock.valid then tipsToVote f (betterTip acc (GetTipToVote t))
    else tipsToVote f acc
end

mutual
/-- Modelled from the spec: `GetTipToExtend()` — like `GetTipToVote`, but a
subtree rooted at a block with `HasValidatorUpdate` set whose height exceeds
the local HCC height is excluded wholesale. -/
def GetTipToExtend (hccHeight : Nat) : BlockTree → EBlock
  | .node b f => tipsToExtend hccHeight f b
/-- The traversal of the children during `GetTipToExtend`: a child is
entered when its block is `Valid` and it is not a validator-update block
above the local HCC height. -/
def tipsToExtend (hccHeight : Nat) : BlockForest → EBlock → EBlock
  | .nil, acc => acc
  | .cons t f, acc =>
    if t.rootBlock.valid = true ∧
        ¬(t.rootBlock.hasValidatorUpdate = true ∧ hccHeight < t.rootBlock.blk.height) then
      tipsToExtend hccHeight f (betterTip acc (GetTipToExtend hccHeight t))
    else tipsToExtend hccHeight f acc
end

mutual
/-- The blocks eligible for `GetTipToVote`: every block on the path from the
root to the block (the root excepted, the chain store keeping its genesis
root valid) has `Valid` set. -/
inductive ReachV : BlockTree → EBlock → Prop where
  | here (b : EBlock) (f : BlockForest) : ReachV (.node b f) b
  | down (b : EBlock) (f : BlockForest) (c : EBlock) :
      ReachVF f c → ReachV (.node b f) c
/-- Eligibility through a forest of children. -/
inductive ReachVF : BlockForest → EBlock → Prop where
  | head (t : BlockTree) (f : BlockForest) (c : EBlock) :
      t.rootBlock.valid = true → ReachV t c → ReachVF (.cons t f) c
  | tail (t : BlockTree) (f : BlockForest) (c : EBlock) :
      ReachVF f c → ReachVF (.cons t f) c
end

mutual
/-- The blocks eligible for `GetTipToExtend` at local HCC height
`hccHeight`: every block on the path from the root (exclusive) is `Valid`
and is not a validator-update block above the local HCC height — hence no
eligible block lies in a subtree rooted at a validator-update block past the
local HCC. -/
inductive ReachX : Nat → BlockTree → EBlock → Prop where
  | here (hccHeight : Nat) (b : EBlock) (f : BlockForest) : ReachX hccHeight (.node b f) b
  | down (hccHeight : Nat) (b : EBlock) (f : BlockForest) (c : EBlock) :
      ReachXF hccHeight f c → ReachX hccHeight (.node b f) c
/-- Eligibility through a forest of children, for `GetTipToExtend`. -/
inductive ReachXF : Nat → BlockForest → EBlock → Prop where
  | head (hccHeight : Nat) (t : BlockTree) (f : BlockForest) (c : EBlock) :
      t.rootBlock.valid = true →
      ¬(t.rootBlock.hasValidatorUpdate = true ∧ hccHeight < t.rootBlock.blk.height) →
      ReachX hccHeight t c → ReachXF hccHeight (.cons t f) c
  | tail (hccHeight : Nat) (t : BlockTree) (f : BlockForest) (c : EBlock) :
      ReachXF hccHeight f c → ReachXF hccHeight (.cons t f) c
end

/-! ## Helper lemmas for the fork-choice traversals -/

theorem betterTip_eq_or (a b : EBlock) : betterTip a b = a ∨ betterTip a b = b := by
  unfold betterTip
  split
  · exact Or.inr rfl
  · split
    · exact Or.inr rfl
    · exact Or.inl rfl

theorem left_height_le_betterTip (a b : EBlock) :
    a.blk.height ≤ (betterTip a b).blk.height := by
  unfold betterTip
  split
  · omega
  · split
    · rename_i hcond
      simp only [Bool.and_eq_true, decide_eq_true_eq] at hcond
      omega
    · exact Nat.le_refl _

theorem right_height_le_betterTip (a b : EBlock) :
    b.blk.height ≤ (betterTip a b).blk.height := by
  unfold betterTip
  split
  · exact Nat.le_refl _
  · split
    · exact Nat.le_refl _
    · omega

theorem acc_height_le_tipsToVote (f : BlockForest) (acc : EBlock) :
    acc.blk.height ≤ (tipsToVote f acc).blk.height :=
  match f with
  | .nil => Nat.le_refl _
  | .cons t f => by
    rw [tipsToVote]
    split
    · exact Nat.le_trans (left_height_le_betterTip acc (GetTipToVote t))
        (acc_height_le_tipsToVote f _)
    · exact acc_height_le_tipsToVote f acc

theorem acc_height_le_tipsToExtend (hccHeight : Nat) (f : BlockForest) (acc : EBlock) :
    acc.blk.height ≤ (tipsToExtend hccHeight f acc).blk.height :=
  match f with
  | .nil => Nat.le_refl _
  | .cons t f => by
    rw [tipsToExtend]
    split
    · exact Nat.le_trans (left_height_le_betterTip acc (GetTipToExtend hccHeight t))
        (acc_height_le_tipsToExtend hccHeight f _)
    · exact acc_height_le_tipsToExtend hccHeight f acc

mutual
theorem GetTipToVote_reach (t : BlockTree) : ReachV t (GetTipToVote t) :=
  match t with
  | .node b f =>
    match tipsToVote_acc_or_reach f b with
    | Or.inl h => by rw [GetTipToVote, h]; exact ReachV.here b f
    | Or.inr h => ReachV.down b f _ h
theorem tipsToVote_acc_or_reach (f : BlockForest) (acc : EBlock) :
    tipsToVote f acc = acc ∨ ReachVF f (tipsToVote f acc) :=
  match f with
  | .nil => Or.inl rfl
  | .cons t f =>
    if hv : t.rootBlock.valid = true then by
      rw [tipsToVote, if_pos hv]
      rcases tipsToVote_acc_or_reach f (betterTip acc (GetTipToVote t)) with h | h
      · rw [h]
        rcases betterTip_eq_or acc (GetTipToVote t) with h2 | h2
        · exact Or.inl h2
        · refine Or.inr ?_
          rw [h2]
          exact ReachVF.head t f _ hv (GetTipToVote_reach t)
      · exact Or.inr (ReachVF.tail t f _ h)
    else by
      rw [tipsToVote, if_neg hv]
      rcases tipsToVote_acc_or_reach f acc with h | h
      · exact Or.inl h
      · exact Or.inr (ReachVF.tail t f _ h)
end

mutual
theorem GetTipToVote_max (t : BlockTree) (c : EBlock) (h : ReachV t c) :
    c.blk.height ≤ (GetTipToVote t).blk.height :=
  match t, h with
  | .node b f, ReachV.here _ _ => acc_height_le_tipsToVote f b
  | .node b f, ReachV.down _ _ _ hf => tipsToVote_max f b c hf
theorem tipsToVote_max (f : BlockForest) (acc c : EBlock) (h : ReachVF f c) :
    c.blk.height ≤ (tipsToVote f acc).blk.height :=
  match f, h with
  | .cons t f, ReachVF.head _ _ _ hv hr => by
    rw [tipsToVote, if_pos hv]
    exact Nat.le_trans (GetTipToVote_max t c hr)
      (Nat.le_trans (right_height_le_betterTip acc (GetTipToVote t))
        (acc_height_le_tipsToVote f _))
  | .cons t f, ReachVF.tail _ _ _ hf => by
    rw [tipsToVote]
    split
    · exact tipsToVote_max f _ c hf
    · exact tipsToVote_max f acc c hf
end

mutual
theorem GetTipToExtend_reach (hccHeight : Nat) (t : BlockTree) :
    ReachX hccHeight t (GetTipToExtend hccHeight t) :=
  match t with
  | .node b f =>
    match tipsToExtend_acc_or_reach hccHeight f b with
    | Or.inl h => by rw [GetTipToExtend, h]; exact ReachX.here hccHeight b f
    | Or.inr h => ReachX.down hccHeight b f _ h
theorem tipsToExtend_acc_or_reach (hccHeight : Nat) (f : BlockForest) (acc : EBlock) :
    tipsToExtend hccHeight f acc = acc ∨ ReachXF hccHeight f (tipsToExtend hccHeight f acc) :=
  match f with
  | .nil => Or.inl rfl
  | .cons t f =>
    if hv : t.rootBlock.valid = true ∧
        ¬(t.rootBlock.hasValidatorUpdate = true ∧ hccHeight < t.rootBlock.blk.height) then by
      rw [tipsToExtend, if_pos hv]
      rcases tipsToExtend_acc_or_reach hccHeight f
          (betterTip acc (GetTipToExtend hccHeight t)) with h | h
      · rw [h]
        rcases betterTip_eq_or acc (GetTipToExtend hccHeight t) with h2 | h2
        · exact Or.inl h2
        · refine Or.inr ?_
          rw [h2]
          exact ReachXF.head hccHeight t f _ hv.1 hv.2 (GetTipToExtend_reach hccHeight t)
      · exact Or.inr (ReachXF.tail hccHeight t f _ h)
    else by
      rw [tipsToExtend, if_neg hv]
      rcases tipsToExtend_acc_or_reach hccHeight f acc with h | h
      · exact Or.inl h
      · exact Or.inr (ReachXF.tail hccHeight t f _ h)
end

mutual
theorem GetTipToExtend_max (hccHeight : Nat) (t : BlockTree) (c : EBlock)
    (h : ReachX hccHeight t c) :
    c.blk.height ≤ (GetTipToExtend hccHeight t).blk.height :=
  match t, h with
  | .node b f, ReachX.here _ _ _ => acc_height_le_tipsToExtend hccHeight f b
  | .node b f, ReachX.down _ _ _ _ hf => tipsToExtend_max hccHeight f b c hf
theorem tipsToExtend_max (hccHeight : Nat) (f : BlockForest) (acc c : EBlock)
    (h : ReachXF hccHeight f c) :
    c.blk.height ≤ (tipsToExtend hccHeight f acc).blk.height :=
  match f, h with
  | .cons t f, ReachXF.head _ _ _ _ hv hnu hr => by
    rw [tipsToExtend, if_pos ⟨hv, hnu⟩]
    exact Nat.le_trans (GetTipToExtend_max hccHeight t c hr)
      (Nat.le_trans (right_height_le_betterTip acc (GetTipToExtend hccHeight t))
        (acc_height_le_tipsToExtend hccHeight f _))
  | .cons t f, ReachXF.tail _ _ _ _ hf => by
    rw [tipsToExtend]
    split
    · exact tipsToExtend_max hccHeight f _ c hf
    · exact tipsToExtend_max hccHeight f acc c hf
end

/-! ## Helper lemmas for the handler registry -/

theorem lookupHandler_cons (c : Nat) (h : Handler) (mp : List (Nat × Handler)) (cid : Nat) :
    lookupHandler ((c, h) :: mp) cid = if c = cid then some h else lookupHandler mp cid := by
  by_cases hc : c = cid
  · simp [lookupHandler, List.find?_cons, hc]
  · simp [lookupHandler, List.find?_cons, hc]

theorem addHandlerLoop_keeps (h : Handler) (l : List Nat) (mp : List (Nat × Handler))
    (x : Nat) (hx : lookupHandler mp x = some h) :
    lookupHandler (addHandlerLoop mp h l).snd x = some h := by
  induction l generalizing mp with
  | nil => exact hx
  | cons c rest ih =>
    rw [addHandlerLoop]
    cases hl : lookupHandler mp c with
    | some g => exact hx
    | none =>
      refine ih ((c, h) :: mp) ?_
      rw [lookupHandler_cons]
      split
      · rfl
      · exact hx

theorem addHandlerLoop_spec (h : Handler) (l : List Nat) (mp : List (Nat × Handler))
    (hnd : l.Nodup) :
    ((∃ cid ∈ l, (lookupHandler mp cid).isSome = true) →
      (addHandlerLoop mp h l).fst = false) ∧
    ((∀ cid ∈ l, lookupHandler mp cid = none) →
      (addHandlerLoop mp h l).fst = true ∧
      ∀ cid ∈ l, lookupHandler (addHandlerLoop mp h l).snd cid = some h) := by
  induction l generalizing mp with
  | nil =>
    constructor
    · rintro ⟨cid, hmem, _⟩
      exact absurd hmem (List.not_mem_nil cid)
    · intro _
      exact ⟨rfl, fun cid hmem => absurd hmem (List.not_mem_nil cid)⟩
  | cons c rest ih =>
    rw [List.nodup_cons] at hnd
    constructor
    · rintro ⟨cid, hmem, hsome⟩
      rw [addHandlerLoop]
      cases hl : lookupHandler mp c with
      | some g => rfl
      | none =>
        rcases List.mem_cons.mp hmem with rfl | hmem2
        · rw [hl] at hsome
          cases hsome
        · refine (ih ((c, h) :: mp) hnd.2).1 ?_
          refine ⟨cid, hmem2, ?_⟩
          rw [lookupHandler_cons]
          split
          · rfl
          · exact hsome
    · intro hall
      have hc := hall c (List.mem_cons_self c rest)
      rw [addHandlerLoop, hc]
      have hfresh : ∀ cid ∈ rest, lookupHandler ((c, h) :: mp) cid = none := by
        intro cid hmem
        rw [lookupHandler_cons, if_neg (fun he => hnd.1 (by rw [he]; exact hmem))]
        exact hall cid (List.mem_cons_of_mem c hmem)
      obtain ⟨h1, h2⟩ := (ih ((c, h) :: mp) hnd.2).2 hfresh
      refine ⟨h1, ?_⟩
      intro cid hmem
      rcases List.mem_cons.mp hmem with rfl | hmem2
      · exact addHandlerLoop_keeps h rest _ cid (by rw [lookupHandler_cons, if_pos rfl])
      · exact h2 cid hmem2

theorem addHandlerLoop_partial (h : Handler) (pre : List Nat) (c : Nat) (rest : List Nat)
    (mp : List (Nat × Handler)) (hnd : pre.Nodup)
    (hfresh : ∀ x ∈ pre, lookupHandler mp x = none)
    (hconf : (lookupHandler mp c).isSome = true) :
    (addHandlerLoop mp h (pre ++ c :: rest)).fst = false ∧
    ∀ x ∈ pre, lookupHandler (addHandlerLoop mp h (pre ++ c :: rest)).snd x = some h := by
  induction pre generalizing mp with
  | nil =>
    rw [List.nil_append, addHandlerLoop]
    cases hl : lookupHandler mp c with
    | some g => exact ⟨rfl, fun x hx => absurd hx (List.not_mem_nil x)⟩
    | none =>
      rw [hl] at hconf
      cases hconf
  | cons p pre ih =>
    rw [List.nodup_cons] at hnd
    have hp := hfresh p (List.mem_cons_self p pre)
    rw [List.cons_append, addHandlerLoop, hp]
    have hfresh2 : ∀ x ∈ pre, lookupHandler ((p, h) :: mp) x = none := by
      intro x hx
      rw [lookupHandler_cons, if_neg (fun he => hnd.1 (by rw [he]; exact hx))]
      exact hfresh x (List.mem_cons_of_mem p hx)
    have hconf2 : (lookupHandler ((p, h) :: mp) c).isSome = true := by
      rw [lookupHandler_cons]
      split
      · rfl
      · exact hconf
    obtain ⟨h1, h2⟩ := ih ((p, h) :: mp) hnd.2 hfresh2 hconf2
    refine ⟨h1, ?_⟩
    intro x hx
    rcases List.mem_cons.mp hx with rfl | hx2
    · exact addHandlerLoop_keeps h _ _ x (by rw [lookupHandler_cons, if_pos rfl])
    · exact h2 x hx2

/-! ## Concrete messenger fixtures -/

/-- A handler already occupying channel 5. -/
def h0 : Handler := ⟨9, [5]⟩

/-- A handler listing the same channel ID twice. -/
def hdup : Handler := ⟨1, [5, 5]⟩

/-- A handler listing the fresh channel 4 before the taken channel 5. -/
def h1 : Handler := ⟨2, [4, 5]⟩

/-- A handler for the fresh channels 6 and 7. -/
def h2 : Handler := ⟨3, [6, 7]⟩

/-- A messenger with an empty handler registry and no peers. -/
def m0 : Messenger := ⟨[], []⟩

/-- A messenger whose registry already maps channel 5 to `h0`. -/
def m5 : Messenger := ⟨[(5, h0)], []⟩

/-! ## Claim theorems: messenger -/

/-- C8: `Broadcast(message)` returns a buffered channel whose capacity is
the number of peers in the peer table at call time, and one boolean marker
— the result of `Send` to that peer — is delivered per peer. -/
theorem c8_broadcast_per_peer (msgr : Messenger) (message : Message) :
    (msgr.Broadcast message).fst = msgr.peerTable.length ∧
    (msgr.Broadcast message).snd.length = msgr.peerTable.length ∧
    (msgr.Broadcast message).snd =
      msgr.peerTable.map (fun peer => msgr.Send peer.pid message) := by
  refine ⟨rfl, ?_, rfl⟩
  simp [Messenger.Broadcast]

/-- C9, counterexample: a handler whose channel-ID list repeats a channel
(here `[5, 5]`) is rejected by `AddMessageHandler` even though none of its
channel IDs already had a registered handler, contradicting the claim that
the call returns `true` whenever no listed channel is already taken. -/
theorem c9_counterexample :
    (∀ cid ∈ hdup.channelIDs, lookupHandler m0.msgHandlerMap cid = none) ∧
    (m0.AddMessageHandler hdup).fst = false := by
  decide

/-- C9, amended: for a handler whose channel-ID list has no duplicates,
`AddMessageHandler` returns `false` when at least one of the listed channel
IDs already has a registered handler, and otherwise registers the handler
for every listed channel ID and returns `true`. -/
theorem c9_add_message_handler (msgr : Messenger) (h : Handler)
    (hnd : h.channelIDs.Nodup) :
    ((∃ cid ∈ h.channelIDs, (lookupHandler msgr.msgHandlerMap cid).isSome = true) →
      (msgr.AddMessageHandler h).fst = false) ∧
    ((∀ cid ∈ h.channelIDs, lookupHandler msgr.msgHandlerMap cid = none) →
      (msgr.AddMessageHandler h).fst = true ∧
      ∀ cid ∈ h.channelIDs,
        lookupHandler (msgr.AddMessageHandler h).snd.msgHandlerMap cid = some h) := by
  have hs := addHandlerLoop_spec h h.channelIDs msgr.msgHandlerMap hnd
  simpa [Messenger.AddMessageHandler] using hs

/-- C9, witness: channel 5 is taken in `m5`, so adding `h1 = ⟨2, [4, 5]⟩`
fails; on the empty registry, adding `h2 = ⟨3, [6, 7]⟩` succeeds and maps
channel 6 to `h2`. -/
theorem c9_add_message_handler_witness :
    h1.channelIDs.Nodup ∧ (m5.AddMessageHandler h1).fst = false ∧
    h2.channelIDs.Nodup ∧ (m0.AddMessageHandler h2).fst = true ∧
    lookupHandler (m0.AddMessageHandler h2).snd.msgHandlerMap 6 = some h2 :=
  ⟨by decide,
   (c9_add_message_handler m5 h1 (by decide)).1 ⟨5, by decide, by decide⟩,
   by decide,
   ((c9_add_message_handler m0 h2 (by decide)).2 (by decide)).1,
   ((c9_add_message_handler m0 h2 (by decide)).2 (by decide)).2 6 (by decide)⟩

/-- C10: when `AddMessageHandler` rejects a handler because a channel ID at
a later position of its channel-ID list was already registered, the earlier
(fresh) channel IDs of the list have nonetheless been remapped to the new
handler — the rejection leaves the registry partially updated. -/
theorem c10_partial_registration (msgr : Messenger) (h : Handler) (pre : List Nat)
    (c : Nat) (rest : List Nat)
    (hsplit : h.channelIDs = pre ++ c :: rest)
    (hnd : pre.Nodup)
    (hfresh : ∀ x ∈ pre, lookupHandler msgr.msgHandlerMap x = none)
    (hconf : (lookupHandler msgr.msgHandlerMap c).isSome = true) :
    (msgr.AddMessageHandler h).fst = false ∧
    ∀ x ∈ pre, lookupHandler (msgr.AddMessageHandler h).snd.msgHandlerMap x = some h := by
  have hs := addHandlerLoop_partial h pre c rest msgr.msgHandlerMap hnd hfresh hconf
  simpa [Messenger.AddMessageHandler, hsplit] using hs

/-- C10, witness: adding `h1 = ⟨2, [4, 5]⟩` to `m5` (where channel 5 is
taken and channel 4 is fresh) returns `false` yet leaves channel 4 mapped
to `h1`. -/
theorem c10_partial_registration_witness :
    h1.channelIDs = [4] ++ 5 :: [] ∧
    (lookupHandler m5.msgHandlerMap 5).isSome = true ∧
    (m5.AddMessageHandler h1).fst = false ∧
    lookupHandler (m5.AddMessageHandler h1).snd.msgHandlerMap 4 = some h1 :=
  ⟨by decide, by decide,
   (c10_partial_registration m5 h1 [4] 5 [] (by decide) (by decide)
     (by decide) (by decide)).1,
   (c10_partial_registration m5 h1 [4] 5 [] (by decide) (by decide)
     (by decide) (by decide)).2 4 (by decide)⟩

/-! ## Concrete consensus fixtures

The fixtures mirror the scenarios of `consensus/engine_test.go`: a mock
validator manager with the single proposer address `7` of voting power zero,
a genesis root, and the chains built by the tests.  Hashes are the numbers
100-105, the chain ID is 1. -/

/-- The mock validator manager: always proposer `7`, validator set
`[(7, 0)]` (one validator of zero stake, as in the tests). -/
def vm0 : ValidatorManager := ⟨fun _ _ => 7, fun _ => [(7, 0)]⟩

/-- The genesis root block (hash 100). -/
def rootB : Block := ⟨1, 100, 0, 0, 0, 0, [], 0, 0, 0⟩

/-- The stored root: valid, no validator update. -/
def rootE : EBlock := ⟨rootB, true, false⟩

/-- Block at height 1 on the root (hash 101), HCC = root. -/
def b1B : Block := ⟨1, 101, 1, 1, 100, 100, [], 7, 5, 7⟩

/-- Block b1 marked valid. -/
def eb1 : EBlock := ⟨b1B, true, false⟩

/-- Block b1 before `MarkBlockValid`. -/
def eb1inv : EBlock := ⟨b1B, false, false⟩

/-- Block at height 2 (hash 102), HCC = b1. -/
def b2B : Block := ⟨1, 102, 2, 2, 101, 101, [], 7, 5, 7⟩

/-- Block b2 marked valid, carrying the validator update. -/
def eb2 : EBlock := ⟨b2B, true, true⟩

/-- Block at height 3 (hash 103), HCC = b2. -/
def b3B : Block := ⟨1, 103, 3, 3, 102, 102, [], 7, 5, 7⟩

/-- Block b3 marked valid. -/
def eb3 : EBlock := ⟨b3B, true, false⟩

/-- Block at height 4 (hash 104), HCC = b3. -/
def b4B : Block := ⟨1, 104, 4, 5, 103, 103, [], 7, 5, 7⟩

/-- Block b4 marked valid. -/
def eb4 : EBlock := ⟨b4B, true, false⟩

/-- The chain of `TestGrandChildBlockOfValidatorChange`: root, b1, b2
(validator update), b3 — all valid. -/
def chain1 : Chain := [rootE, eb1, eb2, eb3]

/-- The chain of `TestGrandGrandChildBlockOfValidatorChange`: root, b1, b2
(validator update), b3, b4 — all valid. -/
def chain3 : Chain := [rootE, eb1, eb2, eb3, eb4]

/-- The chain of `TestValidParent` before `MarkBlockValid(b1)`. -/
def chainV : Chain := [rootE, eb1inv]

/-- The chain of `TestSingleBlockValidation`: just the root. -/
def chainR : Chain := [rootE]

/-- Candidate of C1: child of b3 whose HCC references b2 — the validator
update point `U` itself, one generation above the parent b3 (hash 104,
HCC = 102). -/
def b4U : Block := ⟨1, 104, 4, 4, 103, 102, [], 7, 5, 7⟩

/-- Candidate of C2 rejected by the tests: child of b2 whose HCC references
b1 instead of b2. -/
def b3bad : Block := ⟨1, 103, 3, 3, 102, 101, [], 7, 5, 7⟩

/-- Candidate of C2 accepted by the tests: child of b2 with HCC = b2. -/
def b3good : Block := ⟨1, 103, 3, 4, 102, 102, [], 7, 5, 7⟩

/-- Candidate of C3: child of b4 with HCC = b4 (the parent). -/
def b5a : Block := ⟨1, 105, 5, 6, 104, 104, [], 7, 5, 7⟩

/-- Candidate of C3: child of b4 with HCC = b3 (`U`'s child). -/
def b5b : Block := ⟨1, 105, 5, 7, 104, 103, [], 7, 5, 7⟩

/-! ## Claim theorems: block validation -/

/-- C1, counterexample: in the configuration with the validator update on
the parent's own parent `U` (chain root→b1→b2→b3 with the update on b2,
candidate b4 on b3 with `HCC.BlockHash = U.Hash`), every other rule V1-V4
(and the vote-shape rule) holds, yet `validateBlock` returns `false` — the
candidate whose HCC equals `U.Hash` is rejected, not accepted. -/
theorem c1_counterexample :
    eb3.hasValidatorUpdate = false ∧
    FindBlock chain1 eb3.blk.parent = some eb2 ∧
    eb2.hasValidatorUpdate = true ∧
    b4U.hccHash = eb2.blk.hash ∧
    wellFormed 1 b4U eb3 = true ∧
    sigOk b4U = true ∧
    proposerOk vm0 b4U eb3 = true ∧
    eb3.valid = true ∧
    votesShapeOk vm0 b4U = true ∧
    validateBlock 1 chain1 vm0 b4U eb3 = false := by
  decide

/-- C1, amended: when the closest validator-update ancestor `U` of the
parent is the parent's own parent, `validateBlock` accepts a candidate
exactly when, along with rules V1-V4 and the vote-shape rule, its
`HCC.BlockHash` equals the parent's hash and its `HCC.Votes` is a non-empty
set reaching a quorum of the validator set at the HCC target; in particular
a candidate whose HCC references `U` or an ancestor of `U` is rejected. -/
theorem c1_grandchild_hcc (localChainID : Nat) (chain : Chain) (vm : ValidatorManager)
    (b : Block) (parent gp : EBlock)
    (hpu : parent.hasValidatorUpdate = false)
    (hgp : FindBlock chain parent.blk.parent = some gp)
    (hgu : gp.hasValidatorUpdate = true) :
    validateBlock localChainID chain vm b parent = true ↔
      (wellFormed localChainID b parent = true ∧ sigOk b = true ∧
       proposerOk vm b parent = true ∧ parent.valid = true ∧
       b.hccHash = parent.blk.hash ∧ b.hccVotes ≠ [] ∧
       quorum (vm.getValidatorSet b.hccHash) b.hccVotes = true ∧
       votesShapeOk vm b = true) := by
  unfold validateBlock hccOk
  rw [hpu, hgp]
  simp [hgu, List.isEmpty_iff, and_assoc]

/-- C1, witness for the amended claim: the iff applied to the concrete
grandchild configuration of the tests shows the candidate with
`HCC = U.Hash` rejected (its HCC is not the parent's hash). -/
theorem c1_grandchild_hcc_witness :
    eb3.hasValidatorUpdate = false ∧
    FindBlock chain1 eb3.blk.parent = some eb2 ∧
    eb2.hasValidatorUpdate = true ∧
    validateBlock 1 chain1 vm0 b4U eb3 = false :=
  ⟨by decide, by decide, by decide, by
    have hiff := c1_grandchild_hcc 1 chain1 vm0 b4U eb3 eb2 (by decide) (by decide)
      (by decide)
    rw [Bool.eq_false_iff]
    intro htrue
    have hc := hiff.mp htrue
    exact absurd hc.2.2.2.2.1 (by decide)⟩

/-- C2: when the parent itself carries the validator update, a candidate
whose `HCC.BlockHash` differs from the parent's hash is rejected, and one
whose `HCC.BlockHash` equals the parent's hash is accepted as soon as the
remaining rules hold. -/
theorem c2_child_of_update (localChainID : Nat) (chain : Chain) (vm : ValidatorManager)
    (b : Block) (parent : EBlock)
    (hpu : parent.hasValidatorUpdate = true) :
    (b.hccHash ≠ parent.blk.hash →
      validateBlock localChainID chain vm b parent = false) ∧
    (b.hccHash = parent.blk.hash →
      wellFormed localChainID b parent = true → sigOk b = true →
      proposerOk vm b parent = true → parent.valid = true →
      votesShapeOk vm b = true →
      validateBlock localChainID chain vm b parent = true) := by
  unfold validateBlock hccOk
  rw [hpu]
  constructor
  · intro hne
    simp [hne]
  · intro heq h1 h2 h3 h4 h5
    simp [heq, h1, h2, h3, h4, h5]

/-- C2, witness: on the chain of `TestChildBlockOfValidatorChange` (b2 has
the update), the candidate with `HCC = b1` is rejected and the candidate
with `HCC = b2` is accepted. -/
theorem c2_child_of_update_witness :
    eb2.hasValidatorUpdate = true ∧
    validateBlock 1 chain1 vm0 b3bad eb2 = false ∧
    validateBlock 1 chain1 vm0 b3good eb2 = true :=
  ⟨by decide,
   (c2_child_of_update 1 chain1 vm0 b3bad eb2 (by decide)).1 (by decide),
   (c2_child_of_update 1 chain1 vm0 b3good eb2 (by decide)).2 (by decide) (by decide)
     (by decide) (by decide) (by decide) (by decide)⟩

/-- C3: when the validator update `U` sits two generations above the parent
(`U` is the candidate's grand-grandparent), a candidate whose HCC references
the parent or `U`'s child is accepted as soon as the remaining rules hold,
and an accepted candidate whose HCC references the generation of `U` or
earlier necessarily carries a non-empty `HCC.Votes` set drawn from the
validator set at the HCC target. -/
theorem c3_grandgrandchild_hcc (localChainID : Nat) (chain : Chain)
    (vm : ValidatorManager) (b : Block) (parent gp ggp hb : EBlock)
    (hpu : parent.hasValidatorUpdate = false)
    (hgp : FindBlock chain parent.blk.parent = some gp)
    (hgu : gp.hasValidatorUpdate = false)
    (hggp : FindBlock chain gp.blk.parent = some ggp)
    (hggu : ggp.hasValidatorUpdate = true) :
    ((b.hccHash = parent.blk.hash ∨ b.hccHash = gp.blk.hash) →
      FindBlock chain b.hccHash = some hb → ggp.blk.height < hb.blk.height →
      wellFormed localChainID b parent = true → sigOk b = true →
      proposerOk vm b parent = true → parent.valid = true →
      votesShapeOk vm b = true →
      validateBlock localChainID chain vm b parent = true) ∧
    (validateBlock localChainID chain vm b parent = true →
      FindBlock chain b.hccHash = some hb → hb.blk.height ≤ ggp.blk.height →
      b.hccVotes ≠ [] ∧
      ∀ v ∈ b.hccVotes,
        v.id ∈ List.map (fun w => w.fst) (vm.getValidatorSet b.hccHash)) := by
  constructor
  · intro hor hhb hht h1 h2 h3 h4 h5
    unfold validateBlock hccOk
    simp [hpu, hgp, hgu, hggp, hggu, hhb, h1, h2, h3, h4, h5, Nat.not_le.mpr hht]
    rcases hor with h | h
    · exact Or.inl h
    · exact Or.inr h
  · intro hval hhb hht
    unfold validateBlock at hval
    simp only [Bool.and_eq_true] at hval
    obtain ⟨⟨⟨⟨⟨-, -⟩, -⟩, -⟩, hcc⟩, hshape⟩ := hval
    unfold hccOk at hcc
    simp only [hpu, hgp, hgu, hggp, hggu, hhb, Bool.false_eq_true, if_false,
      if_pos hht, Bool.and_eq_true, Bool.not_eq_true', Bool.true_eq_false,
      if_true] at hcc
    have hne : b.hccVotes ≠ [] := by
      intro hnil
      rw [hnil] at hcc
      exact absurd hcc.1 (by decide)
    refine ⟨hne, ?_⟩
    intro v hv
    simp only [votesShapeOk, Bool.or_eq_true, Bool.and_eq_true, List.all_eq_true] at hshape
    rcases hshape with hemp | ⟨-, hmem⟩
    · exact absurd (List.isEmpty_iff.mp hemp) hne
    · exact List.elem_iff.mp (hmem v hv)

/-- C3, witness: on the grand-grandchild chain of the tests, the candidates
with `HCC = b4` (the parent) and `HCC = b3` (`U`'s child) are both
accepted. -/
theorem c3_grandgrandchild_hcc_witness :
    eb4.hasValidatorUpdate = false ∧
    FindBlock chain3 eb4.blk.parent = some eb3 ∧
    eb3.hasValidatorUpdate = false ∧
    FindBlock chain3 eb3.blk.parent = some eb2 ∧
    eb2.hasValidatorUpdate = true ∧
    validateBlock 1 chain3 vm0 b5a eb4 = true ∧
    validateBlock 1 chain3 vm0 b5b eb4 = true :=
  ⟨by decide, by decide, by decide, by decide, by decide,
   (c3_grandgrandchild_hcc 1 chain3 vm0 b5a eb4 eb3 eb2 eb4 (by decide) (by decide)
       (by decide) (by decide) (by decide)).1 (Or.inl (by decide)) (by decide)
     (by decide) (by decide) (by decide) (by decide) (by decide) (by decide),
   (c3_grandgrandchild_hcc 1 chain3 vm0 b5b eb4 eb3 eb2 eb3 (by decide) (by decide)
       (by decide) (by decide) (by decide)).1 (Or.inr (by decide)) (by decide)
     (by decide) (by decide) (by decide) (by decide) (by decide) (by decide)⟩

/-- C6: a candidate whose parent lacks the `Valid` flag is rejected, and
after the parent is marked valid (`MarkBlockValid`) the same candidate is
accepted as soon as the remaining rules hold on the updated store. -/
theorem c6_parent_validity (localChainID : Nat) (chain : Chain) (vm : ValidatorManager)
    (b : Block) (parent : EBlock) :
    (parent.valid = false → validateBlock localChainID chain vm b parent = false) ∧
    (wellFormed localChainID b (setValid parent) = true → sigOk b = true →
      proposerOk vm b (setValid parent) = true →
      hccOk (MarkBlockValid chain parent.blk.hash) vm b (setValid parent) = true →
      votesShapeOk vm b = true →
      validateBlock localChainID (MarkBlockValid chain parent.blk.hash) vm b
        (setValid parent) = true) := by
  constructor
  · intro hv
    unfold validateBlock
    simp [hv]
  · intro h1 h2 h3 h4 h5
    unfold validateBlock
    simp only [setValid] at h1 h3 h4
    simp [h1, h2, h3, h4, h5, setValid]

/-- C6, witness: the `TestValidParent` scenario — `validate(B2, B1)` is
`false` while b1 is unmarked and `true` after `MarkBlockValid(B1)`. -/
theorem c6_parent_validity_witness :
    eb1inv.valid = false ∧
    validateBlock 1 chainV vm0 b2B eb1inv = false ∧
    validateBlock 1 (MarkBlockValid chainV eb1inv.blk.hash) vm0 b2B
      (setValid eb1inv) = true :=
  ⟨by decide,
   (c6_parent_validity 1 chainV vm0 b2B eb1inv).1 (by decide),
   (c6_parent_validity 1 chainV vm0 b2B eb1inv).2 (by decide) (by decide) (by decide)
     (by decide) (by decide)⟩

/-- C7: the `TestSingleBlockValidation` scenario — the well-formed block B1
on the root validates, and each of the seven mutants (zero height, zero
epoch, zero parent link, zero HCC link, zero proposer, zero timestamp,
signature by a different key) is rejected. -/
theorem c7_single_block_validation :
    validateBlock 1 chainR vm0 b1B rootE = true ∧
    validateBlock 1 chainR vm0 { b1B with height := 0 } rootE = false ∧
    validateBlock 1 chainR vm0 { b1B with epoch := 0 } rootE = false ∧
    validateBlock 1 chainR vm0 { b1B with parent := 0 } rootE = false ∧
    validateBlock 1 chainR vm0 { b1B with hccHash := 0 } rootE = false ∧
    validateBlock 1 chainR vm0 { b1B with proposer := 0 } rootE = false ∧
    validateBlock 1 chainR vm0 { b1B with timestamp := 0 } rootE = false ∧
    validateBlock 1 chainR vm0 { b1B with signature := 8 } rootE = false := by
  decide

/-! ## Concrete fork-choice fixtures: the `TestTipSelection` tree
`root → a1 → a2` and `root → b1 → b2 → b3`, all valid, with the validator
update marked on b2. -/

/-- The root of the tip-selection tree (hash 10, height 0). -/
def tRoot : EBlock := ⟨⟨1, 10, 0, 0, 0, 0, [], 7, 5, 7⟩, true, false⟩

/-- a1 (hash 11, height 1), valid. -/
def tA1 : EBlock := ⟨⟨1, 11, 1, 1, 10, 10, [], 7, 5, 7⟩, true, false⟩

/-- a2 (hash 12, height 2), valid. -/
def tA2 : EBlock := ⟨⟨1, 12, 2, 2, 11, 11, [], 7, 5, 7⟩, true, false⟩

/-- b1 (hash 13, height 1), valid. -/
def tB1 : EBlock := ⟨⟨1, 13, 1, 1, 10, 10, [], 7, 5, 7⟩, true, false⟩

/-- b2 (hash 14, height 2), valid, carrying the validator update. -/
def tB2 : EBlock := ⟨⟨1, 14, 2, 2, 13, 13, [], 7, 5, 7⟩, true, true⟩

/-- b3 (hash 15, height 3), valid. -/
def tB3 : EBlock := ⟨⟨1, 15, 3, 3, 14, 14, [], 7, 5, 7⟩, true, false⟩

/-- The chain tree of `TestTipSelection` after all blocks are marked valid
and b2 is marked with the validator update. -/
def treeUpd : BlockTree :=
  .node tRoot
    (.cons (.node tA1 (.cons (.node tA2 .nil) .nil))
      (.cons (.node tB1 (.cons (.node tB2 (.cons (.node tB3 .nil) .nil)) .nil)) .nil))

/-! ## Claim theorems: fork choice -/

/-- C4: `GetTipToVote()` returns a block whose whole path from the root is
valid, of maximal height among all such blocks; when only the root
qualifies, it returns the root. -/
theorem c4_get_tip_to_vote (t : BlockTree) (_hroot : t.rootBlock.valid = true) :
    ReachV t (GetTipToVote t) ∧
    (∀ c, ReachV t c → c.blk.height ≤ (GetTipToVote t).blk.height) ∧
    ((∀ c, ReachV t c → c = t.rootBlock) → GetTipToVote t = t.rootBlock) :=
  ⟨GetTipToVote_reach t,
   fun c hc => GetTipToVote_max t c hc,
   fun hall => hall _ (GetTipToVote_reach t)⟩

/-- C4, witness: the theorem applied to the `TestTipSelection` tree. -/
theorem c4_get_tip_to_vote_witness :
    treeUpd.rootBlock.valid = true ∧
    (ReachV treeUpd (GetTipToVote treeUpd) ∧
     (∀ c, ReachV treeUpd c → c.blk.height ≤ (GetTipToVote treeUpd).blk.height) ∧
     ((∀ c, ReachV treeUpd c → c = treeUpd.rootBlock) →
       GetTipToVote treeUpd = treeUpd.rootBlock)) :=
  ⟨by decide, c4_get_tip_to_vote treeUpd (by decide)⟩

/-- C5: `GetTipToExtend()` returns a block of maximal height among the
blocks reachable from the root along valid blocks, excluding every subtree
rooted at a validator-update block whose height exceeds the local HCC
height; on the `TestTipSelection` tree with the update on b2 it returns a2
(the b branch is cut at b2). -/
theorem c5_get_tip_to_extend :
    (∀ (hccHeight : Nat) (t : BlockTree), t.rootBlock.valid = true →
      ReachX hccHeight t (GetTipToExtend hccHeight t) ∧
      ∀ c, ReachX hccHeight t c →
        c.blk.height ≤ (GetTipToExtend hccHeight t).blk.height) ∧
    GetTipToExtend 0 treeUpd = tA2 :=
  ⟨fun hccHeight t _ => ⟨GetTipToExtend_reach hccHeight t,
      fun c hc => GetTipToExtend_max hccHeight t c hc⟩,
   by decide⟩

/-- C5, witness: the universally quantified part applied to the
`TestTipSelection` tree at local HCC height 0. -/
theorem c5_get_tip_to_extend_witness :
    treeUpd.rootBlock.valid = true ∧
    ReachX 0 treeUpd (GetTipToExtend 0 treeUpd) :=
  ⟨by decide, (c5_get_tip_to_extend.1 0 treeUpd (by decide)).1⟩

end Theta
